import Mathlib

/-!
# Verification of the ECR pull-through admission webhook

A shallow embedding of the webhook's core logic, translated from the Go
sources (`cmd/main.go` and the earlier variant of the same program), together
with theorems settling the specification claims.

Go strings are modelled as `List Char`; machine-level concerns (JSON wire
encoding, HTTP) are abstracted into explicit decode outcomes, which is what
the admission pipeline branches on.
-/

/-- Go strings, modelled as lists of characters. -/
abbrev Str := List Char

/-! ## Go string primitives -/

/-- Go `strings.Contains(s, sub)`: substring containment (true for empty `sub`). -/
def goContains : Str → Str → Bool
  | [], sub => List.isPrefixOf sub []
  | c :: t, sub => List.isPrefixOf sub (c :: t) || goContains t sub

/-- Split a string at its first slash: `cutSlash s = some (before, after)` when
`s = before ++ '/' :: after` with no slash in `before`; `none` when `s` has no
slash.  This models both `strings.IndexByte(image, '/')` followed by slicing
(`cmd/main.go`) and `strings.Cut(image, "/")` (the earlier variant). -/
def cutSlash : Str → Option (Str × Str)
  | [] => none
  | c :: t =>
    if c = '/' then some ([], t)
    else
      match cutSlash t with
      | none => none
      | some (b, a) => some (c :: b, a)

/-! ## The rewrite engine (from `cmd/main.go`) -/

/-- `const dockerHubRegistry = "docker.io/"`. -/
def dockerHubRegistry : Str := "docker.io/".data

/-- The webhook server configuration: the ordered registry list and the
destination cache hostname (built once from account ID and region). -/
structure Server where
  registries : List Str
  ecrRegistryHostname : Str

/-- `isEcrRegistry` reports whether the given registry hostname belongs to an
ECR endpoint: `strings.Contains(registry, ".dkr.ecr.")`. -/
def isEcrRegistry (registry : Str) : Bool :=
  goContains registry ".dkr.ecr.".data

/-- The registry/path decomposition computed at the top of `rewriteImage`
(`cmd/main.go` lines 96–113): split the image at its first slash, then apply
the Docker Hub implicit-registry rules.  Returns the (possibly normalized)
registry, with its trailing slash, and the remaining path. -/
def normalizeSplit (image : Str) : Str × Str :=
  match cutSlash image with
  | none =>
    -- bare image: "nginx" → docker.io/, library/nginx
    (dockerHubRegistry, "library/".data ++ image)
  | some (host, p) =>
    if goContains (host ++ ['/']) ".".data = false ∧ goContains (host ++ ['/']) ":".data = false then
      -- no registry specified, implicit Docker Hub
      (dockerHubRegistry, image)
    else if host ++ ['/'] = dockerHubRegistry ∧ goContains p "/".data = false then
      -- docker.io/nginx → docker.io/, library/nginx
      (host ++ ['/'], "library/".data ++ p)
    else
      (host ++ ['/'], p)

/-- `rewriteImage` normalizes the image, checks whether its registry is in the
configured list, and returns the pull-through cache path.  `none` models the
Go return `("", false)`. -/
def rewriteImage (s : Server) (image : Str) : Option Str :=
  if s.registries.contains (normalizeSplit image).1 then
    if isEcrRegistry (normalizeSplit image).1 then
      some (s.ecrRegistryHostname ++ (normalizeSplit image).2)
    else
      some (s.ecrRegistryHostname ++ (normalizeSplit image).1 ++ (normalizeSplit image).2)
  else none

/-- An example configuration matching the repository's own tests. -/
def exampleServer : Server :=
  { registries := ["ghcr.io/".data, "docker.io/".data]
    ecrRegistryHostname := "12345.dkr.ecr.us-west-2.amazonaws.com/".data }

/-- An ECR-catalog configuration matching the cross-account rewrite test. -/
def crossAccountServer : Server :=
  { registries := ["99999.dkr.ecr.eu-west-1.amazonaws.com/".data]
    ecrRegistryHostname := "12345.dkr.ecr.us-east-1.amazonaws.com/".data }

/-! ## The earlier variant (`src/unnamed/part_000`): explicit normalizer and
first-match loop over the configured registry list -/

/-- `normalizeDockerHubImage` ensures Docker Hub images have an explicit
`docker.io/library/` or `docker.io/` prefix.  Non-Docker-Hub images are
returned unchanged. -/
def normalizeDockerHubImage (image : Str) : Str :=
  match cutSlash image with
  | none => "docker.io/library/".data ++ image
  | some (host, p) =>
    if goContains host ".".data || goContains host ":".data then
      if host ≠ "docker.io".data then image
      else if !goContains p "/".data then
        -- docker.io/nginx -> docker.io/library/nginx
        "docker.io/library/".data ++ p
      else image
    else
      -- No registry specified -> Docker Hub implicit
      "docker.io/".data ++ image

/-- Everything of a string past its first slash; the whole string when it has
no slash (`normalized[strings.Index(normalized, "/")+1:]`). -/
def afterFirstSlash (s : Str) : Str :=
  match cutSlash s with
  | none => s
  | some (_, a) => a

/-- The per-registry `rewriteImage(image, registry)` of the earlier variant:
normalize only against the Docker Hub entry, test the entry as a string
prefix of the (possibly normalized) image, and rebuild under the cache
hostname. -/
def rewriteImageReg (ecrHostname image registry : Str) : Option Str :=
  let normalized := if registry = "docker.io/".data then normalizeDockerHubImage image else image
  if !List.isPrefixOf registry normalized then none
  else if isEcrRegistry registry then some (ecrHostname ++ afterFirstSlash normalized)
  else some (ecrHostname ++ normalized)

/-- The registry loop inside the earlier variant's `addPatchForImage`: try the
configured registries in order and keep the first successful rewrite. -/
def firstMatch (ecrHostname : Str) (regs : List Str) (image : Str) : Option Str :=
  match regs with
  | [] => none
  | r :: rest =>
    match rewriteImageReg ecrHostname image r with
    | some newImage => some newImage
    | none => firstMatch ecrHostname rest image

/-! ## The patch pipeline (`cmd/main.go`, `mutate`) -/

/-- One JSON-Patch operation `{op, path, value}`. -/
structure PatchOp where
  op : Str
  path : Str
  value : Str
deriving DecidableEq

/-- The per-image closure inside `mutate`: skip images already under the cache
hostname, otherwise emit one replace operation when the rewrite matches. -/
def addPatchForImage (s : Server) (image pathStr : Str) : Option PatchOp :=
  if List.isPrefixOf s.ecrRegistryHostname image then none
  else
    match rewriteImage s image with
    | some newImage => some { op := "replace".data, path := pathStr, value := newImage }
    | none => none

/-- A Pod, reduced to the only data the webhook reads: the image of each
entry of the three container arrays, in array order. -/
structure Pod where
  containers : List Str
  initContainers : List Str
  ephemeralContainers : List Str

/-- `fmt.Sprintf("/spec/%s/%d/image", segment, i)`. -/
def imagePath (segment : Str) (i : Nat) : Str :=
  "/spec/".data ++ segment ++ "/".data ++ (Nat.repr i).data ++ "/image".data

/-- The ordered patch list `mutate` accumulates: containers first, then init
containers, then ephemeral containers, each in array index order, one
operation per matching image. -/
def mutatePatches (s : Server) (pod : Pod) : List PatchOp :=
  (pod.containers.enum.filterMap fun e =>
    addPatchForImage s e.2 (imagePath "containers".data e.1)) ++
  (pod.initContainers.enum.filterMap fun e =>
    addPatchForImage s e.2 (imagePath "initContainers".data e.1)) ++
  (pod.ephemeralContainers.enum.filterMap fun e =>
    addPatchForImage s e.2 (imagePath "ephemeralContainers".data e.1))

/-! ## C5 apparatus: entries of a Pod in traversal order -/

/-- The segment name of each container collection, by traversal rank. -/
def segName : Nat → Str
  | 0 => "containers".data
  | 1 => "initContainers".data
  | _ => "ephemeralContainers".data

/-- The (segment rank, array index, image) triples of a Pod in the traversal
order of `mutate`: containers, then init containers, then ephemeral
containers, each in array index order. -/
def podEntries (pod : Pod) : List (Nat × Nat × Str) :=
  (pod.containers.enum.map fun e => (0, e.1, e.2)) ++
  (pod.initContainers.enum.map fun e => (1, e.1, e.2)) ++
  (pod.ephemeralContainers.enum.map fun e => (2, e.1, e.2))

/-- Whether the pipeline patches this image: not already under the cache
hostname, and the rewrite matches. -/
def imageMatches (s : Server) (image : Str) : Bool :=
  !List.isPrefixOf s.ecrRegistryHostname image && (rewriteImage s image).isSome


/-- The decode outcome of the inbound payload, which is all `mutate` branches
on: the envelope fails to unmarshal; it carries no request; or it carries a
request with a UID and an embedded object that either fails to unmarshal as a
Pod (`none`) or yields one. -/
inductive MutateInput where
  | malformedEnvelope
  | noRequest
  | request (uid : Str) (podDecode : Option Pod)

/-- The two decode failures `mutate` can return. -/
inductive MutateError where
  | envelopeDecodeError
  | podDecodeError
deriving DecidableEq

/-- The admission patch type; the only variant the code uses is JSONPatch. -/
inductive PatchType where
  | jsonPatch
deriving DecidableEq

/-- The fields `mutate` sets on the admission response. -/
structure AdmissionResponse where
  allowed : Bool
  uid : Str
  patchType : Option PatchType
  patch : List PatchOp
  resultStatus : Str

/-- What `mutate` hands back on success: the empty body (when the review had
no request) or the serialized review carrying a response. -/
inductive MutateOutput where
  | emptyBody
  | reviewWithResponse (resp : AdmissionResponse)

/-- `mutate` (`cmd/main.go` lines 148–222): unmarshal the review (failure is
an error), pass an absent request through as the empty body, unmarshal the
Pod (failure is an error), otherwise build the allowed response with the
request's UID, the JSONPatch patch type and the accumulated patch list.
Marshalling the response review cannot fail for this data and is modelled
total. -/
def mutate (s : Server) (input : MutateInput) : Except MutateError MutateOutput :=
  match input with
  | .malformedEnvelope => .error .envelopeDecodeError
  | .noRequest => .ok .emptyBody
  | .request uid podDecode =>
    match podDecode with
    | none => .error .podDecodeError
    | some pod =>
      .ok (.reviewWithResponse
        { allowed := true
          uid := uid
          patchType := some .jsonPatch
          patch := mutatePatches s pod
          resultStatus := "Success".data })

/-! ## The certificate hot-reloader (`cmd/main.go`, `CertReloader`) -/

/-- A loaded TLS key pair, opaque to the reloader logic; modelled as a token. -/
abbrev TLSCert := Nat

/-- The mutable fields of `CertReloader` (the two file paths are fixed
strings and are absorbed into the stat/load oracles below).  The Go zero
value of the modification time is `0`. -/
structure CertReloader where
  cachedCert : Option TLSCert
  cachedCertModTime : Nat
deriving DecidableEq

/-- The outcome of one `GetCertificate` call: the returned certificate
(`none` together with `isError = true` models the `nil, err` returns), the
reloader state after the call, and whether `tls.LoadX509KeyPair` was
invoked. -/
structure GetCertResult where
  returnedCert : Option TLSCert
  isError : Bool
  state : CertReloader
  loadAttempted : Bool
deriving DecidableEq

/-- `GetCertificate` (`cmd/main.go` lines 66–81), with the filesystem
abstracted into two oracles: `statResult` is the stat of the certificate file
(`none` = stat error, `some mt` = its modification time) and `loadResult` is
what `tls.LoadX509KeyPair` would produce (`none` = load failure). -/
def getCertificate (cr : CertReloader) (statResult : Option Nat)
    (loadResult : Option TLSCert) : GetCertResult :=
  match statResult with
  | none => { returnedCert := none, isError := true, state := cr, loadAttempted := false }
  | some mt =>
    if cr.cachedCert.isNone || decide (cr.cachedCertModTime < mt) then
      match loadResult with
      | none => { returnedCert := none, isError := true, state := cr, loadAttempted := true }
      | some pair =>
        let cr' : CertReloader := { cachedCert := some pair, cachedCertModTime := mt }
        { returnedCert := cr'.cachedCert, isError := false, state := cr', loadAttempted := true }
    else
      { returnedCert := cr.cachedCert, isError := false, state := cr, loadAttempted := false }

/-! ## An interleaving model of two concurrent `GetCertificate` calls

`CertReloader` has no lock, so the two field writes of the reload branch
(lines 76–77) and the field reads of a concurrent call (lines 71 and 80) are
plain, unsynchronized accesses to shared memory.  We model one writer in its
reload branch and one concurrent reader, each memory access an atomic step,
under an arbitrary interleaving.  Certificates and mod times are `0` (old)
and `1` (new). -/

/-- The shared mutable fields, as plain cells. -/
structure ReloaderShared where
  cachedCert : Nat
  cachedCertModTime : Nat
deriving DecidableEq

/-- A scheduler pick. -/
inductive Tid where
  | writer
  | reader
deriving DecidableEq

/-- Writer and reader progress plus what the reader saw. -/
structure RaceConfig where
  shared : ReloaderShared
  writerStep : Nat
  readerStep : Nat
  readerSawCert : Nat
  readerSawModTime : Nat
deriving DecidableEq

/-- One atomic memory access of the chosen thread.  Writer step 0 is
`cr.cachedCert = &pair` (line 76); writer step 1 is
`cr.cachedCertModTime = stat.ModTime()` (line 77).  Reader step 0 reads
`cr.cachedCert`; reader step 1 reads `cr.cachedCertModTime` (lines 71/80).
A finished thread does nothing. -/
def raceStep (c : RaceConfig) : Tid → RaceConfig
  | .writer =>
    match c.writerStep with
    | 0 => { c with shared := { c.shared with cachedCert := 1 }, writerStep := 1 }
    | 1 => { c with shared := { c.shared with cachedCertModTime := 1 }, writerStep := 2 }
    | _ => c
  | .reader =>
    match c.readerStep with
    | 0 => { c with readerSawCert := c.shared.cachedCert, readerStep := 1 }
    | 1 => { c with readerSawModTime := c.shared.cachedCertModTime, readerStep := 2 }
    | _ => c

/-- Run a schedule. -/
def raceRun (c : RaceConfig) : List Tid → RaceConfig
  | [] => c
  | t :: ts => raceRun (raceStep c t) ts

/-- Both threads poised, the old pair (cert `0`, mod time `0`) cached. -/
def raceInit : RaceConfig :=
  { shared := { cachedCert := 0, cachedCertModTime := 0 }
    writerStep := 0, readerStep := 0, readerSawCert := 0, readerSawModTime := 0 }


/-! ## Sanity checks mirroring the repository test suite -/

example : rewriteImage exampleServer "nginx".data =
    some "12345.dkr.ecr.us-west-2.amazonaws.com/docker.io/library/nginx".data := by decide

example : rewriteImage exampleServer "docker.io/nginx".data =
    some "12345.dkr.ecr.us-west-2.amazonaws.com/docker.io/library/nginx".data := by decide

example : rewriteImage exampleServer "ghcr.io/owner/image:tag".data =
    some "12345.dkr.ecr.us-west-2.amazonaws.com/ghcr.io/owner/image:tag".data := by decide

example : rewriteImage exampleServer "quay.io/org/repo:tag".data = none := by decide

example : rewriteImage crossAccountServer "99999.dkr.ecr.eu-west-1.amazonaws.com/org/image:tag".data =
    some "12345.dkr.ecr.us-east-1.amazonaws.com/org/image:tag".data := by decide

example : rewriteImage crossAccountServer "88888.dkr.ecr.eu-west-1.amazonaws.com/image:tag".data =
    none := by decide

example : normalizeDockerHubImage "nginx".data = "docker.io/library/nginx".data := by decide
example : normalizeDockerHubImage "owner/image".data = "docker.io/owner/image".data := by decide
example : normalizeDockerHubImage "docker.io/nginx".data = "docker.io/library/nginx".data := by decide
example : normalizeDockerHubImage "ghcr.io/owner/image".data = "ghcr.io/owner/image".data := by decide

example :
    mutatePatches exampleServer
      { containers := ["nginx".data, "ghcr.io/owner/image:tag".data]
        initContainers := ["quay.io/org/repo:tag".data]
        ephemeralContainers := [] } =
      [{ op := "replace".data, path := "/spec/containers/0/image".data
         value := "12345.dkr.ecr.us-west-2.amazonaws.com/docker.io/library/nginx".data },
       { op := "replace".data, path := "/spec/containers/1/image".data
         value := "12345.dkr.ecr.us-west-2.amazonaws.com/ghcr.io/owner/image:tag".data }] := by
  decide


/-! ## String primitive lemmas -/

theorem goContains_singleton (s : Str) (c : Char) :
    goContains s [c] = true ↔ c ∈ s := by
  induction s with
  | nil => simp [goContains, List.isPrefixOf]
  | cons x t ih =>
    simp only [goContains, List.isPrefixOf, Bool.or_eq_true, Bool.and_eq_true,
      beq_iff_eq, ih, List.mem_cons]
    constructor
    · rintro (⟨h1, _⟩ | h2)
      · exact Or.inl h1
      · exact Or.inr h2
    · rintro (h1 | h2)
      · exact Or.inl ⟨h1, trivial⟩
      · exact Or.inr h2

theorem cutSlash_eq_none (s : Str) : cutSlash s = none ↔ '/' ∉ s := by
  induction s with
  | nil => simp [cutSlash]
  | cons x t ih =>
    by_cases hx : x = '/'
    · subst hx; simp [cutSlash]
    · have hx' : ¬('/' = x) := fun h => hx h.symm
      simp only [cutSlash, if_neg hx, List.mem_cons, not_or]
      cases h : cutSlash t with
      | none => simpa [hx'] using ih.mp h
      | some ba =>
        obtain ⟨b, a⟩ := ba
        have hmem : '/' ∈ t := by
          by_contra hmem
          rw [ih.mpr hmem] at h; cases h
        simp [hmem]

theorem cutSlash_sound (s b a : Str) (h : cutSlash s = some (b, a)) :
    s = b ++ '/' :: a ∧ '/' ∉ b := by
  induction s generalizing b a with
  | nil => simp [cutSlash] at h
  | cons x t ih =>
    by_cases hx : x = '/'
    · subst hx
      simp only [cutSlash, reduceIte, Option.some.injEq, Prod.mk.injEq] at h
      obtain ⟨hb, ha⟩ := h
      subst hb; subst ha; simp
    · simp only [cutSlash, if_neg hx] at h
      cases ht : cutSlash t with
      | none => rw [ht] at h; cases h
      | some ba =>
        obtain ⟨b0, a0⟩ := ba
        rw [ht] at h
        simp only [Option.some.injEq, Prod.mk.injEq] at h
        obtain ⟨hb, ha⟩ := h
        obtain ⟨heq, hmem⟩ := ih b0 a0 ht
        subst hb; subst ha
        refine ⟨by simp [heq], ?_⟩
        simp only [List.mem_cons, not_or]
        exact ⟨fun hh => hx hh.symm, hmem⟩

theorem cutSlash_append (host rest : Str) (h : '/' ∉ host) :
    cutSlash (host ++ '/' :: rest) = some (host, rest) := by
  induction host with
  | nil => simp [cutSlash]
  | cons c t ih =>
    simp only [List.mem_cons, not_or] at h
    have hc : ¬(c = '/') := fun hh => h.1 hh.symm
    simp only [List.cons_append, cutSlash, if_neg hc, List.append_eq, ih h.2]

/-! ## Helper lemmas -/

theorem contains_iff_mem (l : List Str) (a : Str) : l.contains a = true ↔ a ∈ l := by
  simp [List.contains, List.elem_iff]

theorem isPrefixOf_append_self (l t : Str) : List.isPrefixOf l (l ++ t) = true :=
  List.isPrefixOf_iff_prefix.mpr ⟨t, rfl⟩

theorem goContains_singleton_false (s : Str) (c : Char) (h : c ∉ s) :
    goContains s [c] = false := by
  cases hb : goContains s [c] with
  | false => rfl
  | true => exact absurd ((goContains_singleton s c).mp hb) h

theorem snd_mem_of_mem_enum {α : Type} {l : List α} {e : Nat × α} (h : e ∈ l.enum) :
    e.2 ∈ l := by
  have hm := List.mem_map_of_mem Prod.snd h
  rwa [List.enum_map_snd] at hm

theorem enumFrom_fst_ge {α : Type} (n : Nat) (l : List α) :
    ∀ e ∈ List.enumFrom n l, n ≤ e.1 := by
  induction l generalizing n with
  | nil => intro e he; cases he
  | cons x t ih =>
    intro e he
    simp only [List.enumFrom] at he
    rcases List.mem_cons.mp he with rfl | hmem
    · exact Nat.le_refl n
    · exact Nat.le_of_succ_le (ih (n + 1) e hmem)

theorem enumFrom_pairwise {α : Type} (n : Nat) (l : List α) :
    List.Pairwise (fun a b => a.1 < b.1) (List.enumFrom n l) := by
  induction l generalizing n with
  | nil => exact List.Pairwise.nil
  | cons x t ih =>
    simp only [List.enumFrom]
    exact List.Pairwise.cons
      (fun b hb => Nat.lt_of_lt_of_le (Nat.lt_succ_self n) (enumFrom_fst_ge (n + 1) t b hb))
      (ih (n + 1))

theorem filterMap_if {α β : Type} (p : α → Bool) (f : α → β) (l : List α) :
    (l.filterMap fun a => if p a then some (f a) else none) = (l.filter p).map f := by
  induction l with
  | nil => rfl
  | cons x t ih =>
    by_cases hx : p x = true
    · simp [List.filterMap_cons, List.filter_cons, hx, ih]
    · simp [List.filterMap_cons, List.filter_cons, hx, ih]

/-! ## Claim theorems -/

/-- C1: Idempotency of the rewrite pipeline.  An image that already begins
with the cache hostname produces no patch operation; every output of
`rewriteImage` begins with the cache hostname; hence a Pod whose images all
begin with the cache hostname — in particular one whose images are all
outputs of a previous run — produces an empty patch list. -/
theorem rewrite_pipeline_idempotent (s : Server) :
    (∀ image pathStr : Str, List.isPrefixOf s.ecrRegistryHostname image = true →
      addPatchForImage s image pathStr = none) ∧
    (∀ image newImage : Str, rewriteImage s image = some newImage →
      List.isPrefixOf s.ecrRegistryHostname newImage = true) ∧
    (∀ pod : Pod,
      (∀ img ∈ pod.containers ++ pod.initContainers ++ pod.ephemeralContainers,
        List.isPrefixOf s.ecrRegistryHostname img = true) →
      mutatePatches s pod = []) := by
  have hguard : ∀ image pathStr : Str, List.isPrefixOf s.ecrRegistryHostname image = true →
      addPatchForImage s image pathStr = none := by
    intro image pathStr h
    simp [addPatchForImage, h]
  refine ⟨hguard, ?_, ?_⟩
  · intro image newImage h
    unfold rewriteImage at h
    by_cases hc : s.registries.contains (normalizeSplit image).1 = true
    · rw [if_pos hc] at h
      by_cases he : isEcrRegistry (normalizeSplit image).1 = true
      · rw [if_pos he] at h
        obtain rfl := (Option.some.inj h).symm
        exact isPrefixOf_append_self _ _
      · rw [if_neg he] at h
        obtain rfl := (Option.some.inj h).symm
        rw [List.append_assoc]
        exact isPrefixOf_append_self _ _
    · rw [if_neg hc] at h
      cases h
  · intro pod hall
    have h1 : ∀ img ∈ pod.containers, List.isPrefixOf s.ecrRegistryHostname img = true :=
      fun img hm => hall img (by simp [hm])
    have h2 : ∀ img ∈ pod.initContainers, List.isPrefixOf s.ecrRegistryHostname img = true :=
      fun img hm => hall img (by simp [hm])
    have h3 : ∀ img ∈ pod.ephemeralContainers, List.isPrefixOf s.ecrRegistryHostname img = true :=
      fun img hm => hall img (by simp [hm])
    have hseg : ∀ (l : List Str) (seg : Str),
        (∀ img ∈ l, List.isPrefixOf s.ecrRegistryHostname img = true) →
        (l.enum.filterMap fun e => addPatchForImage s e.2 (imagePath seg e.1)) = [] := by
      intro l seg hl
      rw [List.filterMap_eq_nil_iff]
      intro e he
      exact hguard e.2 _ (hl e.2 (snd_mem_of_mem_enum he))
    unfold mutatePatches
    rw [hseg _ _ h1, hseg _ _ h2, hseg _ _ h3]
    rfl

/-- C1 witness: a Pod whose only image is an output of a previous run gets an
empty patch list. -/
theorem rewrite_pipeline_idempotent_witness :
    mutatePatches exampleServer
      { containers := ["12345.dkr.ecr.us-west-2.amazonaws.com/docker.io/library/nginx".data]
        initContainers := []
        ephemeralContainers := [] } = [] :=
  (rewrite_pipeline_idempotent exampleServer).2.2 _ (by decide)

/-- C4: First-match-wins.  The registry loop of the earlier variant's
`addPatchForImage` returns exactly the rewrite of the earliest configured
entry that matches (`List.find?` of the match test), and in particular a
matching head entry decides the rewrite no matter what follows it. -/
theorem first_match_wins (ecrHostname image : Str) :
    (∀ regs : List Str,
      firstMatch ecrHostname regs image =
        (regs.find? fun r => (rewriteImageReg ecrHostname image r).isSome).bind
          (fun r => rewriteImageReg ecrHostname image r)) ∧
    (∀ (a : Str) (rest : List Str) (newImage : Str),
      rewriteImageReg ecrHostname image a = some newImage →
      firstMatch ecrHostname (a :: rest) image = some newImage) := by
  constructor
  · intro regs
    induction regs with
    | nil => rfl
    | cons r rest ih =>
      cases h : rewriteImageReg ecrHostname image r with
      | none =>
        rw [List.find?_cons_of_neg _ (by simp [h])]
        simp only [firstMatch, h, ih]
      | some n =>
        rw [List.find?_cons_of_pos _ (by simp [h])]
        simp only [firstMatch, h, Option.bind_some]
        exact h.symm
  · intro a rest newImage h
    simp only [firstMatch, h]

/-- C4 witness: with catalog `[docker.io/, ghcr.io/]` the head entry decides
the rewrite of a Docker Hub image. -/
theorem first_match_wins_witness :
    firstMatch "12345.dkr.ecr.us-west-2.amazonaws.com/".data
        ["docker.io/".data, "ghcr.io/".data] "docker.io/nginx".data =
      some "12345.dkr.ecr.us-west-2.amazonaws.com/docker.io/library/nginx".data :=
  (first_match_wins "12345.dkr.ecr.us-west-2.amazonaws.com/".data "docker.io/nginx".data).2
    "docker.io/".data ["ghcr.io/".data] _ (by decide)

/-- C6: Response assembly.  Whenever `mutate` produces a review with a
response, that response is allowed; and for every successfully decoded
request and Pod, the response is allowed, carries the request's UID and the
JSONPatch patch type. -/
theorem mutate_response_assembly (s : Server) :
    (∀ (input : MutateInput) (r : AdmissionResponse),
      mutate s input = .ok (.reviewWithResponse r) → r.allowed = true) ∧
    (∀ (uid : Str) (pod : Pod), ∃ r : AdmissionResponse,
      mutate s (.request uid (some pod)) = .ok (.reviewWithResponse r) ∧
      r.allowed = true ∧ r.uid = uid ∧ r.patchType = some PatchType.jsonPatch) := by
  constructor
  · intro input r h
    cases input with
    | malformedEnvelope => simp [mutate] at h
    | noRequest => simp [mutate] at h
    | request uid podDecode =>
      cases podDecode with
      | none => simp [mutate] at h
      | some pod =>
        simp only [mutate, Except.ok.injEq, MutateOutput.reviewWithResponse.injEq] at h
        rw [← h]
  · intro uid pod
    exact ⟨_, rfl, rfl, rfl, rfl⟩

/-- C6 witness: the response of a concretely decoded request is allowed,
echoes the UID, and uses JSONPatch. -/
theorem mutate_response_assembly_witness :
    ∃ r : AdmissionResponse,
      mutate exampleServer (.request "test-uid".data (some
        { containers := ["nginx".data], initContainers := [], ephemeralContainers := [] })) =
        .ok (.reviewWithResponse r) ∧
      r.allowed = true ∧ r.uid = "test-uid".data ∧ r.patchType = some PatchType.jsonPatch :=
  (mutate_response_assembly exampleServer).2 "test-uid".data
    { containers := ["nginx".data], initContainers := [], ephemeralContainers := [] }

/-- C7: Decode failure semantics.  `mutate` returns an error exactly when the
envelope fails to unmarshal, or the envelope carries a request whose embedded
object fails to unmarshal as a Pod; in the error case no output is produced
(the result carries no body and no patch operations). -/
theorem mutate_error_iff_decode_failure (s : Server) (input : MutateInput) :
    (∃ e, mutate s input = .error e) ↔
      input = .malformedEnvelope ∨ ∃ uid, input = .request uid none := by
  cases input with
  | malformedEnvelope => simp [mutate]
  | noRequest => simp [mutate]
  | request uid podDecode =>
    cases podDecode with
    | none => simp [mutate]
    | some pod => simp [mutate]

/-- C7 witness: a malformed envelope yields an error. -/
theorem mutate_error_iff_decode_failure_witness :
    ∃ e, mutate exampleServer .malformedEnvelope = .error e :=
  (mutate_error_iff_decode_failure exampleServer .malformedEnvelope).mpr (Or.inl rfl)

/-- C9: the interleaving in which the reader's two field reads fall between
the writer's `cachedCert` write (line 76) and its `cachedCertModTime` write
(line 77) lets the reader observe the new certificate paired with the old
modification time — a state that is neither the complete old pair `(0, 0)`
nor the complete new pair `(1, 1)`, so the unlocked check-reload-swap
sequence is not atomic with respect to concurrent callers. -/
theorem certReloader_torn_observation :
    (raceRun raceInit [Tid.writer, Tid.reader, Tid.reader, Tid.writer]).readerSawCert = 1 ∧
    (raceRun raceInit [Tid.writer, Tid.reader, Tid.reader, Tid.writer]).readerSawModTime = 0 ∧
    (raceRun raceInit [Tid.writer, Tid.reader, Tid.reader, Tid.writer]).writerStep = 2 ∧
    (raceRun raceInit [Tid.writer, Tid.reader, Tid.reader, Tid.writer]).readerStep = 2 ∧
    ((1 : Nat), (0 : Nat)) ≠ ((0 : Nat), (0 : Nat)) ∧
    ((1 : Nat), (0 : Nat)) ≠ ((1 : Nat), (1 : Nat)) := by
  decide

/-- C10: an admission review that decodes but carries no request makes
`mutate` return the empty body with no error, and no review-with-response is
produced. -/
theorem mutate_nil_request_empty (s : Server) :
    mutate s .noRequest = .ok .emptyBody ∧
    ∀ r : AdmissionResponse, mutate s .noRequest ≠ .ok (.reviewWithResponse r) := by
  refine ⟨rfl, fun r h => ?_⟩
  simp [mutate] at h

/-- C10 witness at a concrete configuration. -/
theorem mutate_nil_request_empty_witness :
    mutate exampleServer .noRequest = .ok .emptyBody :=
  (mutate_nil_request_empty exampleServer).1

/-- C3: Docker Hub normalization obeys the five ordered rules, and
`docker.io/nginx` and `docker.io/library/nginx` normalize to the same
canonical form.  (Totality and determinism hold by construction: the
normalizer is a function.) -/
theorem dockerhub_normalization_rules :
    (∀ image : Str, '/' ∉ image →
      normalizeDockerHubImage image = "docker.io/library/".data ++ image) ∧
    (∀ host rest : Str, '/' ∉ host → '.' ∉ host → ':' ∉ host →
      normalizeDockerHubImage (host ++ '/' :: rest) =
        "docker.io/".data ++ (host ++ '/' :: rest)) ∧
    (∀ rest : Str, '/' ∉ rest →
      normalizeDockerHubImage ("docker.io".data ++ '/' :: rest) =
        "docker.io/library/".data ++ rest) ∧
    (∀ rest : Str, '/' ∈ rest →
      normalizeDockerHubImage ("docker.io".data ++ '/' :: rest) =
        "docker.io".data ++ '/' :: rest) ∧
    (∀ host rest : Str, '/' ∉ host → ('.' ∈ host ∨ ':' ∈ host) → host ≠ "docker.io".data →
      normalizeDockerHubImage (host ++ '/' :: rest) = host ++ '/' :: rest) ∧
    normalizeDockerHubImage "docker.io/nginx".data =
      normalizeDockerHubImage "docker.io/library/nginx".data := by
  refine ⟨?_, ?_, ?_, ?_, ?_, by decide⟩
  · intro image h
    have hc : cutSlash image = none := (cutSlash_eq_none image).mpr h
    simp [normalizeDockerHubImage, hc]
  · intro host rest hs hdot hcolon
    have hcut := cutSlash_append host rest hs
    have hd : goContains host ".".data = false := goContains_singleton_false host '.' hdot
    have hcl : goContains host ":".data = false := goContains_singleton_false host ':' hcolon
    simp [normalizeDockerHubImage, hcut, hd, hcl]
  · intro rest h
    have hcut := cutSlash_append "docker.io".data rest (by decide)
    have hdot : goContains "docker.io".data ".".data = true := by decide
    have hg : goContains rest "/".data = false := goContains_singleton_false rest '/' h
    unfold normalizeDockerHubImage
    rw [hcut]
    simp [hdot, hg]
  · intro rest h
    have hcut := cutSlash_append "docker.io".data rest (by decide)
    have hdot : goContains "docker.io".data ".".data = true := by decide
    have hg : goContains rest "/".data = true := (goContains_singleton rest '/').mpr h
    unfold normalizeDockerHubImage
    rw [hcut]
    simp [hdot, hg]
  · intro host rest hs hdc hne
    have hcut := cutSlash_append host rest hs
    have hcond : (goContains host ".".data || goContains host ":".data) = true := by
      rcases hdc with h | h
      · rw [(goContains_singleton host '.').mpr h]; rfl
      · rw [(goContains_singleton host ':').mpr h]; simp
    simp [normalizeDockerHubImage, hcut, hcond, hne]

/-- C3 witness: rule 1 on a concrete bare image. -/
theorem dockerhub_normalization_rules_witness :
    normalizeDockerHubImage "nginx".data = "docker.io/library/".data ++ "nginx".data :=
  dockerhub_normalization_rules.1 "nginx".data (by decide)

/-- If the registry `rewriteImage` matched is an ECR hostname, it was taken
verbatim from the image's first segment, so the image is exactly that
registry followed by the remaining path. -/
theorem normalizeSplit_ecr_eq (image : Str)
    (h : isEcrRegistry (normalizeSplit image).1 = true) :
    image = (normalizeSplit image).1 ++ (normalizeSplit image).2 := by
  have hdh : isEcrRegistry dockerHubRegistry = false := by decide
  cases hc : cutSlash image with
  | none =>
    have hfst : (normalizeSplit image).1 = dockerHubRegistry := by simp [normalizeSplit, hc]
    rw [hfst, hdh] at h; cases h
  | some ba =>
    obtain ⟨host, p⟩ := ba
    obtain ⟨heq, -⟩ := cutSlash_sound image host p hc
    by_cases h1 : goContains (host ++ ['/']) ".".data = false ∧
        goContains (host ++ ['/']) ":".data = false
    · have hfst : (normalizeSplit image).1 = dockerHubRegistry := by
        simp [normalizeSplit, hc, h1]
      rw [hfst, hdh] at h; cases h
    · by_cases h2 : host ++ ['/'] = dockerHubRegistry ∧ goContains p "/".data = false
      · have hfst : (normalizeSplit image).1 = dockerHubRegistry := by
          simp only [normalizeSplit, hc, h1, h2]
          split <;> rfl
        rw [hfst, hdh] at h; cases h
      · have hs : normalizeSplit image = (host ++ ['/'], p) := by
          simp [normalizeSplit, hc, h1, h2]
        rw [hs, heq]
        simp

/-- C2: rewrite result on match and no-match.  No catalog entry matching the
image's (possibly normalized) registry means no rewrite and no patch; a
matching ECR entry re-roots the image under the cache hostname with the
entry's prefix stripped verbatim; any other matching entry re-roots the full
normalized image (registry kept as a leading path component) under the cache
hostname. -/
theorem rewriteImage_match_cases (s : Server) (image : Str) :
    ((normalizeSplit image).1 ∉ s.registries →
      rewriteImage s image = none ∧
      ∀ pathStr : Str, addPatchForImage s image pathStr = none) ∧
    ((normalizeSplit image).1 ∈ s.registries →
      isEcrRegistry (normalizeSplit image).1 = true →
      image = (normalizeSplit image).1 ++ (normalizeSplit image).2 ∧
      rewriteImage s image = some (s.ecrRegistryHostname ++ (normalizeSplit image).2)) ∧
    ((normalizeSplit image).1 ∈ s.registries →
      isEcrRegistry (normalizeSplit image).1 = false →
      rewriteImage s image =
        some (s.ecrRegistryHostname ++ (normalizeSplit image).1 ++ (normalizeSplit image).2)) := by
  refine ⟨?_, ?_, ?_⟩
  · intro h
    have hc : s.registries.contains (normalizeSplit image).1 = false := by
      cases hb : s.registries.contains (normalizeSplit image).1 with
      | false => rfl
      | true => exact absurd ((contains_iff_mem _ _).mp hb) h
    have hrw : rewriteImage s image = none := by
      unfold rewriteImage
      rw [if_neg (by simpa using h)]
    refine ⟨hrw, fun pathStr => ?_⟩
    by_cases hp : List.isPrefixOf s.ecrRegistryHostname image = true
    · simp [addPatchForImage, hp]
    · simp [addPatchForImage, hp, hrw]
  · intro hm he
    exact ⟨normalizeSplit_ecr_eq image he, by simp [rewriteImage, hm, he]⟩
  · intro hm he
    simp [rewriteImage, hm, he]

/-- C2 witness: the ECR-match case at the cross-account configuration of the
repository's tests. -/
theorem rewriteImage_match_cases_witness :
    rewriteImage crossAccountServer "99999.dkr.ecr.eu-west-1.amazonaws.com/org/image:tag".data =
      some (crossAccountServer.ecrRegistryHostname ++
        (normalizeSplit "99999.dkr.ecr.eu-west-1.amazonaws.com/org/image:tag".data).2) :=
  ((rewriteImage_match_cases crossAccountServer
    "99999.dkr.ecr.eu-west-1.amazonaws.com/org/image:tag".data).2.1
      (by decide) (by decide)).2

/-- C8: the certificate reload contract.  A failed stat returns an error and
leaves the cache untouched; a load is attempted exactly when no pair is
cached or the file is newer than the cached modification time; a failed load
returns an error and leaves both cached fields unchanged; a successful load
updates the cached pair and modification time together and returns the new
pair; when no load is needed the cached pair is returned unchanged. -/
theorem getCertificate_reload_contract (cr : CertReloader) (statResult : Option Nat)
    (loadResult : Option TLSCert) :
    (statResult = none →
      getCertificate cr statResult loadResult =
        { returnedCert := none, isError := true, state := cr, loadAttempted := false }) ∧
    (∀ mt, statResult = some mt →
      ((getCertificate cr statResult loadResult).loadAttempted = true ↔
        cr.cachedCert = none ∨ cr.cachedCertModTime < mt)) ∧
    (∀ mt, statResult = some mt → loadResult = none →
      (getCertificate cr statResult loadResult).loadAttempted = true →
      getCertificate cr statResult loadResult =
        { returnedCert := none, isError := true, state := cr, loadAttempted := true }) ∧
    (∀ mt pair, statResult = some mt → loadResult = some pair →
      (getCertificate cr statResult loadResult).loadAttempted = true →
      getCertificate cr statResult loadResult =
        { returnedCert := some pair, isError := false,
          state := { cachedCert := some pair, cachedCertModTime := mt }
          loadAttempted := true }) ∧
    (∀ mt, statResult = some mt →
      (getCertificate cr statResult loadResult).loadAttempted = false →
      getCertificate cr statResult loadResult =
        { returnedCert := cr.cachedCert, isError := false, state := cr
          loadAttempted := false }) := by
  cases statResult with
  | none =>
    refine ⟨fun _ => rfl, ?_, ?_, ?_, ?_⟩
    · intro mt h; cases h
    · intro mt h; cases h
    · intro mt pair h; cases h
    · intro mt h; cases h
  | some mt0 =>
    by_cases hb : (cr.cachedCert.isNone || decide (cr.cachedCertModTime < mt0)) = true
    · have hcond : cr.cachedCert = none ∨ cr.cachedCertModTime < mt0 := by
        simpa [Option.isNone_iff_eq_none] using hb
      cases loadResult with
      | none =>
        have hgc : getCertificate cr (some mt0) none =
            { returnedCert := none, isError := true, state := cr, loadAttempted := true } := by
          simp [getCertificate, hb]
        refine ⟨?_, ?_, ?_, ?_, ?_⟩
        · intro h; cases h
        · intro mt h
          obtain rfl : mt = mt0 := (Option.some.inj h).symm
          simp [hgc, hcond]
        · intro mt h hl ha
          obtain rfl : mt = mt0 := (Option.some.inj h).symm
          exact hgc
        · intro mt pair h hl
          cases hl
        · intro mt h ha
          rw [hgc] at ha
          cases ha
      | some pair0 =>
        have hgc : getCertificate cr (some mt0) (some pair0) =
            { returnedCert := some pair0, isError := false,
              state := { cachedCert := some pair0, cachedCertModTime := mt0 }
              loadAttempted := true } := by
          simp [getCertificate, hb]
        refine ⟨?_, ?_, ?_, ?_, ?_⟩
        · intro h; cases h
        · intro mt h
          obtain rfl : mt = mt0 := (Option.some.inj h).symm
          simp [hgc, hcond]
        · intro mt h hl
          cases hl
        · intro mt pair h hl ha
          obtain rfl : mt = mt0 := (Option.some.inj h).symm
          obtain rfl : pair = pair0 := (Option.some.inj hl).symm
          exact hgc
        · intro mt h ha
          rw [hgc] at ha
          cases ha
    · have hcond : ¬(cr.cachedCert = none ∨ cr.cachedCertModTime < mt0) := by
        intro hor
        exact hb (by simpa [Option.isNone_iff_eq_none] using hor)
      have hgc : getCertificate cr (some mt0) loadResult =
          { returnedCert := cr.cachedCert, isError := false, state := cr
            loadAttempted := false } := by
        simp only [getCertificate]
        rw [if_neg (by simpa using hb)]
      refine ⟨?_, ?_, ?_, ?_, ?_⟩
      · intro h; cases h
      · intro mt h
        obtain rfl : mt = mt0 := (Option.some.inj h).symm
        simp [hgc, hcond]
      · intro mt h hl ha
        rw [hgc] at ha
        cases ha
      · intro mt pair h hl ha
        rw [hgc] at ha
        cases ha
      · intro mt h ha
        obtain rfl : mt = mt0 := (Option.some.inj h).symm
        exact hgc

/-- C8 witness: with nothing cached, a stat at time 5 and a loadable pair 7,
the call loads and swaps both cached fields together. -/
theorem getCertificate_reload_contract_witness :
    getCertificate { cachedCert := none, cachedCertModTime := 0 } (some 5) (some 7) =
      { returnedCert := some 7, isError := false,
        state := { cachedCert := some 7, cachedCertModTime := 5 }, loadAttempted := true } :=
  (getCertificate_reload_contract { cachedCert := none, cachedCertModTime := 0 }
    (some 5) (some 7)).2.2.2.1 5 7 rfl rfl (by decide)

theorem addPatchForImage_eq (s : Server) (image pathStr : Str) :
    addPatchForImage s image pathStr =
      if imageMatches s image then
        some { op := "replace".data, path := pathStr, value := (rewriteImage s image).getD [] }
      else none := by
  unfold addPatchForImage imageMatches
  by_cases hp : List.isPrefixOf s.ecrRegistryHostname image = true
  · simp [hp]
  · cases hr : rewriteImage s image with
    | none => simp [hp, hr]
    | some n => simp [hp, hr]

theorem walk_general (s : Server) (k : Nat) (seg : Str) (hseg : segName k = seg)
    (n : Nat) (l : List Str) :
    ((List.enumFrom n l).filterMap fun e => addPatchForImage s e.2 (imagePath seg e.1)) =
      (((List.enumFrom n l).map fun e => (k, e.1, e.2)).filter
          fun e => imageMatches s e.2.2).map
        (fun e => { op := "replace".data, path := imagePath (segName e.1) e.2.1,
                    value := (rewriteImage s e.2.2).getD [] }) := by
  subst hseg
  induction l generalizing n with
  | nil => rfl
  | cons x t ih =>
    simp only [List.enumFrom, List.filterMap_cons, List.map_cons, List.filter_cons]
    rw [addPatchForImage_eq]
    cases hm : imageMatches s x with
    | false => simp [hm, ih]
    | true => simp [hm, ih]

theorem walk_filterMap (s : Server) (k : Nat) (seg : Str) (hseg : segName k = seg)
    (l : List Str) :
    (l.enum.filterMap fun e => addPatchForImage s e.2 (imagePath seg e.1)) =
      ((l.enum.map fun e => (k, e.1, e.2)).filter fun e => imageMatches s e.2.2).map
        (fun e => { op := "replace".data, path := imagePath (segName e.1) e.2.1,
                    value := (rewriteImage s e.2.2).getD [] }) :=
  walk_general s k seg hseg 0 l

theorem podEntries_pairwise (pod : Pod) :
    List.Pairwise (fun a b => a.1 < b.1 ∨ (a.1 = b.1 ∧ a.2.1 < b.2.1)) (podEntries pod) := by
  have hseg : ∀ (k : Nat) (l : List Str),
      List.Pairwise (fun a b => a.1 < b.1 ∨ (a.1 = b.1 ∧ a.2.1 < b.2.1))
        (l.enum.map fun e => (k, e.1, e.2)) := by
    intro k l
    rw [List.pairwise_map]
    refine List.Pairwise.imp ?_ (enumFrom_pairwise 0 l)
    intro a b h
    exact Or.inr ⟨rfl, h⟩
  have hfst : ∀ (k : Nat) (l : List Str) (a : Nat × Nat × Str),
      a ∈ (l.enum.map fun e => (k, e.1, e.2)) → a.1 = k := by
    intro k l a ha
    obtain ⟨e, -, rfl⟩ := List.mem_map.mp ha
    rfl
  unfold podEntries
  refine List.pairwise_append.mpr
    ⟨List.pairwise_append.mpr ⟨hseg 0 _, hseg 1 _, ?_⟩, hseg 2 _, ?_⟩
  · intro a ha b hb
    exact Or.inl (by rw [hfst 0 _ a ha, hfst 1 _ b hb]; exact Nat.zero_lt_one)
  · intro a ha b hb
    rcases List.mem_append.mp ha with h | h
    · exact Or.inl (by rw [hfst 0 _ a h, hfst 2 _ b hb]; exact Nat.zero_lt_two)
    · exact Or.inl (by rw [hfst 1 _ a h, hfst 2 _ b hb]; exact Nat.one_lt_two)

/-- C5: patch ordering.  The emitted patch list is exactly one replace
operation per matching image — none for non-matching ones — taken over the
Pod's entries in traversal order, and the retained entries are strictly
ordered: containers before init containers before ephemeral containers, and
ascending array index within each collection. -/
theorem mutatePatches_ordering (s : Server) (pod : Pod) :
    mutatePatches s pod =
      ((podEntries pod).filter fun e => imageMatches s e.2.2).map
        (fun e => { op := "replace".data, path := imagePath (segName e.1) e.2.1,
                    value := (rewriteImage s e.2.2).getD [] }) ∧
    List.Pairwise (fun a b => a.1 < b.1 ∨ (a.1 = b.1 ∧ a.2.1 < b.2.1))
      ((podEntries pod).filter fun e => imageMatches s e.2.2) := by
  constructor
  · unfold mutatePatches podEntries
    rw [List.filter_append, List.map_append, List.filter_append, List.map_append]
    rw [walk_filterMap s 0 "containers".data rfl pod.containers,
      walk_filterMap s 1 "initContainers".data rfl pod.initContainers,
      walk_filterMap s 2 "ephemeralContainers".data rfl pod.ephemeralContainers]
  · exact List.Pairwise.sublist (List.filter_sublist _) (podEntries_pairwise pod)
